import Mathlib

/-!
Verification of the tensor shape-algebra lowering layer of
`torch_xla/csrc/data_ops.cpp`.

The embedding models a dataflow value (an `xla::XlaOp` together with the
shape the builder infers for it) as a `Tensor`: an ordered list of
dimension sizes plus the row-major flattened element data.  The XLA
primitive operations used by the file (reshape, slice, concatenation,
pad, select, broadcast) are given executable reference semantics on
`Tensor`, and each function of `data_ops.cpp` is translated on top of
them.  `XLA_CHECK` failures are modelled with the `Err` type: a check
failure aborts the lowering call, which the translation renders as
`Except Err`.
-/

/-- Failure conditions surfaced by the lowering functions.  Each
constructor corresponds to an `XLA_CHECK` (or, for `moduloByZero`, to an
operation whose behaviour C++ leaves undefined). -/
inductive Err where
  | multipleIncompleteDimensions
  | elementCountMismatch
  | rankMismatch
  | shapeMismatch
  | dimensionOutOfRange
  | fullCoverageWindowMismatch
  | emptyInputList
  | moduloByZero
deriving DecidableEq, Repr

deriving instance DecidableEq for Except

/-- A dataflow value: dimension sizes plus row-major flattened data. -/
structure Tensor (α : Type) where
  shape : List Nat
  data : List α
deriving DecidableEq, Repr

/-- Well-formedness: the data holds exactly one element per shape position. -/
def Tensor.wf (t : Tensor α) : Prop := t.data.length = t.shape.prod

/-- The first `k` consecutive chunks of length `n` of a list. -/
def blocks : Nat → Nat → List α → List (List α)
  | 0, _, _ => []
  | k + 1, n, data => data.take n :: blocks k n (data.drop n)

/-- Concatenate a list of lists, inserting `sep` between neighbours. -/
def joinSep (sep : List α) : List (List α) → List α
  | [] => []
  | [x] => x
  | x :: y :: xs => x ++ sep ++ joinSep sep (y :: xs)

/-- Insert `a` at position `n` (the translation of `vector::insert`). -/
def insertAt : Nat → α → List α → List α
  | 0, a, l => a :: l
  | _ + 1, a, [] => [a]
  | n + 1, a, x :: l => x :: insertAt n a l

/-- `xla::Reshape`: same row-major data, new dimension sizes. -/
def Tensor.reshape (t : Tensor α) (sizes : List Nat) : Tensor α :=
  ⟨sizes, t.data⟩

/-- Data of a stride-1 `xla::SliceInDim`: keep positions `start ≤ i < limit`
of dimension `dim`, working blockwise on the row-major data. -/
def sliceDimData : Nat → List Nat → Nat → Nat → List α → List α
  | _, [], _, _, data => data
  | 0, _ :: s, start, limit, data =>
      (data.drop (start * s.prod)).take ((limit - start) * s.prod)
  | dim + 1, d :: s, start, limit, data =>
      ((blocks d s.prod data).map (sliceDimData dim s start limit)).flatten

/-- `xla::SliceInDim` with stride 1. -/
def sliceInDim (t : Tensor α) (start limit dim : Nat) : Tensor α :=
  ⟨t.shape.set dim (limit - start), sliceDimData dim t.shape start limit t.data⟩

/-- One leading-dimension layer of `xla::ConcatInDim`: take the next
block of each piece, concatenate those blocks with `f`, and continue
with the remaining `k - 1` blocks of every piece.  Each piece carries
the dimension sizes below the concatenation level in its first
component. -/
def catOuter (f : List (List Nat × List α) → List α) :
    Nat → List (List Nat × List α) → List α
  | 0, _ => []
  | k + 1, ps =>
      f (ps.map fun p => (p.1.tail, p.2.take p.1.tail.prod)) ++
        catOuter f k (ps.map fun p => (p.1, p.2.drop p.1.tail.prod))

/-- Data of `xla::ConcatInDim` along dimension `dim`; each piece is the
pair of its dimension sizes and its row-major data.  At `dim = 0`
row-major concatenation is plain append; otherwise the shared leading
dimension is peeled blockwise. -/
def catDimData : Nat → List (List Nat × List α) → List α
  | 0, ps => (ps.map fun p => p.2).flatten
  | _ + 1, [] => []
  | dim + 1, p :: ps => catOuter (catDimData dim) (p.1.headD 0) (p :: ps)

/-- `xla::ConcatInDim`: output size along `dim` is the sum of the
inputs' sizes there; all other dimensions agree with the inputs. -/
def concatInDim (ts : List (Tensor α)) (dim : Nat) : Tensor α :=
  ⟨((ts.headD ⟨[], []⟩).shape).set dim (ts.map fun t => t.shape.getD dim 0).sum,
    catDimData dim (ts.map fun t => (t.shape, t.data))⟩

/-- Shape of `xla::Pad` output: per dimension, low edge padding plus
interior padding between elements plus high edge padding. -/
def padShape : List Nat → List (Int × Int × Int) → List Nat
  | [], _ => []
  | d :: s, [] => d :: s
  | d :: s, (lo, it, hi) :: c =>
      (lo.toNat + d + (d - 1) * it.toNat + hi.toNat) :: padShape s c

/-- Data of `xla::Pad`.  The configuration carries per dimension
`(edge_padding_low, interior_padding, edge_padding_high)`.  This models
the primitive for non-negative padding amounts (every use below is
non-negative under the stated hypotheses); XLA's negative edge padding
(truncation) is outside the modelled fragment. -/
def padData (fill : α) : List Nat → List (Int × Int × Int) → List α → List α
  | [], _, data => data
  | _ :: _, [], data => data
  | d :: s, (lo, it, hi) :: c, data =>
      (List.replicate lo.toNat (List.replicate (padShape s c).prod fill)).flatten ++
        joinSep ((List.replicate it.toNat (List.replicate (padShape s c).prod fill)).flatten)
          ((blocks d s.prod data).map (padData fill s c)) ++
        (List.replicate hi.toNat (List.replicate (padShape s c).prod fill)).flatten

/-- `xla::Pad`. -/
def Tensor.pad (t : Tensor α) (fill : α) (cfg : List (Int × Int × Int)) : Tensor α :=
  ⟨padShape t.shape cfg, padData fill t.shape cfg t.data⟩

/-- `xla::Select`: elementwise choice between two same-shaped operands. -/
def select (m : Tensor Bool) (a b : Tensor α) : Tensor α :=
  ⟨a.shape, List.zipWith (fun mv p => if mv then p.1 else p.2) m.data (a.data.zip b.data)⟩

/-- `xla::Broadcast`: prepend the given sizes as new leading dimensions,
replicating the operand. -/
def Tensor.broadcast (t : Tensor α) (sizes : List Int) : Tensor α :=
  ⟨sizes.map Int.toNat ++ t.shape,
    (List.replicate (sizes.map Int.toNat).prod t.data).flatten⟩

/-- `XlaHelpers::ScalarBroadcast(1, pred_type, dims, builder)`: the
all-true tensor of the given shape. -/
def allTrue (shape : List Nat) : Tensor Bool :=
  ⟨shape, List.replicate shape.prod true⟩

/-- The scanning loop of `GetCompleteShape`: find the (at most one)
negative entry and multiply the remaining ones into
`incomplete_element_count`. -/
def gcsScan : List Int → Nat → Option Nat → Int → Except Err (Option Nat × Int)
  | [], _, inc, acc => .ok (inc, acc)
  | d :: rest, i, inc, acc =>
    if d < 0 then
      if inc.isSome then .error .multipleIncompleteDimensions
      else gcsScan rest (i + 1) (some i) acc
    else gcsScan rest (i + 1) inc (acc * d)

/-- `GetCompleteShape(output_sizes, input_sizes)`: resolve the at most
one negative (incomplete) entry of `output_sizes` against the element
count of `input_sizes`.  The C++ evaluates
`total_element_count % incomplete_element_count` with `%` on `int64`
(truncating remainder, `Int.tmod`); when `incomplete_element_count` is
zero that evaluation is undefined behaviour in C++, modelled here by the
distinct outcome `Err.moduloByZero`. -/
def GetCompleteShape (output_sizes input_sizes : List Int) : Except Err (List Int) :=
  match gcsScan output_sizes 0 none 1 with
  | .error e => .error e
  | .ok (none, _) =>
      if input_sizes.prod = output_sizes.prod then .ok output_sizes
      else .error .elementCountMismatch
  | .ok (some i, k) =>
      if k = 0 then .error .moduloByZero
      else if (input_sizes.prod).tmod k = 0 then
        .ok (output_sizes.set i ((input_sizes.prod).tdiv k))
      else .error .elementCountMismatch

/-- `SqueezeTrivialDimension(input, dim)`: checks `dim < rank`; returns
the input unchanged unless dimension `dim` has size 1, in which case it
reshapes with that dimension erased. -/
def SqueezeTrivialDimension (t : Tensor α) (dim : Nat) : Except Err (Tensor α) :=
  if h : dim < t.shape.length then
    if t.shape.get ⟨dim, h⟩ ≠ 1 then .ok t
    else .ok (t.reshape (t.shape.eraseIdx dim))
  else .error .dimensionOutOfRange

/-- `BuildUnsqueezeDimensions(dimensions, dim)`: checks `dim ≤ rank` and
inserts a size-1 dimension at position `dim`. -/
def BuildUnsqueezeDimensions (dimensions : List Nat) (dim : Nat) : Except Err (List Nat) :=
  if dim ≤ dimensions.length then .ok (insertAt dim 1 dimensions)
  else .error .dimensionOutOfRange

/-- `BuildUnsqueeze(input, dim)`: reshape to the unsqueezed dimension list. -/
def BuildUnsqueeze (t : Tensor α) (dim : Nat) : Except Err (Tensor α) :=
  match BuildUnsqueezeDimensions t.shape dim with
  | .error e => .error e
  | .ok dims => .ok (t.reshape dims)

/-- The per-dimension loop of `BuildRepeat`: for each existing dimension
`dim`, concatenate `repeats[broadcast_dims + dim]` copies of the running
result along `dim`. -/
def repeatLoop (repeats : List Int) (broadcast_dims : Nat) (rank : Nat) (t : Tensor α) : Tensor α :=
  (List.range rank).foldl
    (fun acc dim =>
      concatInDim (List.replicate (repeats.getD (broadcast_dims + dim) 0).toNat acc) dim)
    t

/-- `BuildRepeat(input, repeats)`: checks `len(repeats) ≥ rank`, tiles
every existing dimension by concatenation, then broadcasts the leading
extra `repeats` entries if any. -/
def BuildRepeat (t : Tensor α) (repeats : List Int) : Except Err (Tensor α) :=
  if repeats.length < t.shape.length then .error .rankMismatch
  else
    let broadcast_dims := repeats.length - t.shape.length
    let repeated := repeatLoop repeats broadcast_dims t.shape.length t
    if t.shape.length < repeats.length then
      .ok (repeated.broadcast (repeats.take broadcast_dims))
    else .ok repeated

/-- `ComputeSplitCount(dim_size, split_sizes)`: how many requested sizes
fit in order before one exceeds the remaining length. -/
def ComputeSplitCount : Int → List Nat → Nat
  | _, [] => 0
  | dim_size, size :: rest =>
    if dim_size < (size : Int) then 0
    else ComputeSplitCount (dim_size - size) rest + 1

/-- The emission loop of `BuildSplit`: keep a running offset `index`
into dimension `dim`; emit a stride-1 slice per requested size and stop
at the first size that no longer fits. -/
def buildSplitGo (t : Tensor α) (dim dim_size : Nat) : List Nat → Nat → List (Tensor α)
  | [], _ => []
  | size :: rest, index =>
    if dim_size < index + size then []
    else sliceInDim t index (index + size) dim :: buildSplitGo t dim dim_size rest (index + size)

/-- `BuildSplit(input, split_sizes, dim)`. -/
def BuildSplit (t : Tensor α) (split_sizes : List Nat) (dim : Nat) : List (Tensor α) :=
  buildSplitGo t dim (t.shape.getD dim 0) split_sizes 0

/-- `BuildCat(inputs, dim)`: checks the input list is non-empty, then
concatenates along `dim`. -/
def BuildCat (ts : List (Tensor α)) (dim : Nat) : Except Err (Tensor α) :=
  if ts.isEmpty then .error .emptyInputList else .ok (concatInDim ts dim)

/-- `BuildResize(input, size)`: flatten to rank 1, truncate or zero-pad
to the new element count, reshape to `size`.  When the counts are equal
the original (unflattened) input is reshaped directly, as in the C++. -/
def BuildResize (t : Tensor Int) (size : List Nat) : Tensor Int :=
  let num_elements := t.shape.prod
  let r1_input := t.reshape [num_elements]
  let new_num_elements := size.prod
  let resized_input :=
    if new_num_elements < num_elements then sliceInDim r1_input 0 new_num_elements 0
    else if num_elements < new_num_elements then
      r1_input.pad 0 [(0, 0, (new_num_elements : Int) - (num_elements : Int))]
    else t
  resized_input.reshape size

/-- The padding-configuration loop of `BuildUnselect`: for the selected
dimension emit `(start, stride − 1, target_dim − padded_source_extent)`;
for every other index check that target and source agree (else
`ShapeMismatch`) and emit zero padding. -/
def unselectCfgGo (td sd : List Nat) (dim : Nat) (start stride : Int) :
    List Nat → Except Err (List (Int × Int × Int))
  | [] => .ok []
  | i :: rest =>
    if i = dim then
      match unselectCfgGo td sd dim start stride rest with
      | .error e => .error e
      | .ok cfg =>
          .ok ((start, stride - 1,
            (td.getD i 0 : Int) -
              (start + (sd.getD i 0 : Int) + ((sd.getD i 0 : Int) - 1) * (stride - 1))) :: cfg)
    else if td.getD i 0 = sd.getD i 0 then
      match unselectCfgGo td sd dim start stride rest with
      | .error e => .error e
      | .ok cfg => .ok ((0, 0, 0) :: cfg)
    else .error .shapeMismatch

/-- `BuildUnselect(target, source, dim, start, end, stride)`: fast path
returns `source` when the window covers the whole dimension (checking
`start == 0`, `stride == 1`, `end == target.shape[dim]`); the general
path pads the source and an all-true mask with one shared configuration
and selects between the padded source and the target. -/
def BuildUnselect (target source : Tensor Int) (dim : Nat) (start e stride : Int) :
    Except Err (Tensor Int) :=
  if target.shape.getD dim 0 = source.shape.getD dim 0 then
    if start = 0 ∧ stride = 1 ∧ e = (target.shape.getD dim 0 : Int) then .ok source
    else .error .fullCoverageWindowMismatch
  else
    match unselectCfgGo target.shape source.shape dim start stride
        (List.range target.shape.length) with
    | .error er => .error er
    | .ok cfg =>
        .ok (select ((allTrue source.shape).pad false cfg) (source.pad 0 cfg) target)

/-- Modelled from the spec (§4.5, general path), for comparison with the
code: the padding configuration pads only dimension `dim`, with low edge
padding `start`, interior padding `stride − 1` and high edge padding
`target.shape[dim] − (start + source.shape[dim] +
(source.shape[dim]−1)·(stride−1))`; all other dimensions get zero
padding of every kind. -/
def unselectSpecCfg (td sd : List Nat) (dim : Nat) (start stride : Int) :
    List (Int × Int × Int) :=
  (List.range td.length).map fun i =>
    if i = dim then
      (start, stride - 1,
        (td.getD dim 0 : Int) -
          (start + (sd.getD dim 0 : Int) + ((sd.getD dim 0 : Int) - 1) * (stride - 1)))
    else (0, 0, 0)

/-- Modelled from the spec (§4.3 Split): the chunks are obtained by
pairing each requested size with its running offset (the sum of the
sizes before it), keeping the longest prefix whose chunks still fit in
dimension `dim`, and extracting a stride-1 sub-range for each. -/
def splitSpecChunks (t : Tensor α) (split_sizes : List Nat) (dim : Nat) : List (Tensor α) :=
  ((split_sizes.zip ((List.range split_sizes.length).map
        fun i => (split_sizes.take i).sum)).takeWhile
      (fun p => decide (p.2 + p.1 ≤ t.shape.getD dim 0))).map
    fun p => sliceInDim t p.2 (p.2 + p.1) dim

/-- C2 (counterexample): with the incomplete entry next to a zero-sized
dimension the non-negative entries multiply to zero, and the code
evaluates `5 % 0` — undefined behaviour in C++, not the
`ShapeElementCountMismatch` outcome the claim requires. -/
theorem getCompleteShape_zero_known_product :
    GetCompleteShape [-1, 0] [5] = .error Err.moduloByZero ∧
      Err.moduloByZero ≠ Err.elementCountMismatch := by decide

/-- C3 (counterexample): for `targetSizes = [0, -1]` and
`sourceSizes = [0]` the code reaches `0 % 0` — undefined behaviour,
which is neither a returned shape nor one of the documented errors. -/
theorem getCompleteShape_zero_dim_with_wildcard :
    GetCompleteShape [0, -1] [0] = .error Err.moduloByZero ∧
      Err.moduloByZero ≠ Err.elementCountMismatch ∧
      Err.moduloByZero ≠ Err.multipleIncompleteDimensions := by decide

/-- C4 (counterexample): `BuildRepeat` on a rank-2 input with a single
repeat entry fails the `XLA_CHECK_GE(repeats.size(), input_sizes.size())`
precondition instead of succeeding as the claim states. -/
theorem buildRepeat_short_repeats_fails :
    BuildRepeat (⟨[2, 3], [1, 2, 3, 4, 5, 6]⟩ : Tensor Int) [2] =
      .error Err.rankMismatch := by decide

/-- C4 (amended): tiling dimension 0 of a `[2,3]` input twice requires
`repeats = [2,1]`; the result has shape `[4,3]` and its rows 0 and 1
equal rows 2 and 3 (the data is the original data repeated). -/
theorem buildRepeat_two_one_tiles_dim0 (a b c d e f : Int) :
    BuildRepeat (⟨[2, 3], [a, b, c, d, e, f]⟩ : Tensor Int) [2, 1] =
      .ok ⟨[4, 3], [a, b, c, d, e, f, a, b, c, d, e, f]⟩ := rfl

/-- C10: the fast path of `BuildUnselect` fires on equality of the
`dim`-th sizes alone; it never compares the other dimensions, so a
target/source pair differing in a non-`dim` dimension slips through and
the returned node's shape differs from the target's instead of a
`ShapeMismatch` being raised. -/
theorem buildUnselect_no_cross_dim_check :
    ∃ t s : Tensor Int,
      t.shape.getD 0 0 = s.shape.getD 0 0 ∧
      t.shape.getD 1 0 ≠ s.shape.getD 1 0 ∧
      BuildUnselect t s 0 0 (t.shape.getD 0 0 : Int) 1 = .ok s ∧
      s.shape ≠ t.shape :=
  ⟨⟨[2, 3], [0, 0, 0, 0, 0, 0]⟩, ⟨[2, 5], [7, 7, 7, 7, 7, 7, 7, 7, 7, 7]⟩, by decide⟩

/-- C7: when `target.shape[dim] = source.shape[dim]`, `BuildUnselect`
returns `source` itself exactly when `start = 0`, `stride = 1` and
`end = target.shape[dim]`, and any violation of those three conditions
is the full-coverage window error. -/
theorem buildUnselect_fast_path (t s : Tensor Int) (dim : Nat) (start e stride : Int)
    (_hdim : dim < t.shape.length)
    (heq : t.shape.getD dim 0 = s.shape.getD dim 0) :
    ((start = 0 ∧ stride = 1 ∧ e = (t.shape.getD dim 0 : Int)) →
        BuildUnselect t s dim start e stride = .ok s) ∧
      (¬(start = 0 ∧ stride = 1 ∧ e = (t.shape.getD dim 0 : Int)) →
        BuildUnselect t s dim start e stride = .error Err.fullCoverageWindowMismatch) := by
  constructor
  · intro h
    unfold BuildUnselect
    rw [if_pos heq, if_pos h]
  · intro h
    unfold BuildUnselect
    rw [if_pos heq, if_neg h]

/-- C7 (witness): a full-coverage window returns the source unchanged,
and an inconsistent one (stride 2) is rejected. -/
theorem buildUnselect_fast_path_witness :
    BuildUnselect ⟨[2], [1, 2]⟩ ⟨[2], [3, 4]⟩ 0 0 2 1 = .ok ⟨[2], [3, 4]⟩ ∧
      BuildUnselect ⟨[2], [1, 2]⟩ ⟨[2], [3, 4]⟩ 0 0 2 2 =
        .error Err.fullCoverageWindowMismatch :=
  ⟨(buildUnselect_fast_path ⟨[2], [1, 2]⟩ ⟨[2], [3, 4]⟩ 0 0 2 1 (by decide) (by decide)).1
      (by exact ⟨rfl, rfl, by decide⟩),
    (buildUnselect_fast_path ⟨[2], [1, 2]⟩ ⟨[2], [3, 4]⟩ 0 0 2 2 (by decide) (by decide)).2
      (by decide)⟩

/-- With no negative entry the scan returns the running accumulator
times the product of the list, and no incomplete index. -/
theorem gcsScan_nonneg : ∀ (l : List Int) (i : Nat) (inc : Option Nat) (acc : Int),
    (∀ d ∈ l, 0 ≤ d) → gcsScan l i inc acc = .ok (inc, acc * l.prod)
  | [], i, inc, acc, _ => by simp [gcsScan]
  | d :: rest, i, inc, acc, h => by
    have hd : ¬d < 0 := not_lt.mpr (h d (List.mem_cons_self d rest))
    rw [gcsScan, if_neg hd,
      gcsScan_nonneg rest (i + 1) inc (acc * d) (fun x hx => h x (List.mem_cons_of_mem d hx)),
      List.prod_cons, mul_assoc]

/-- With exactly one negative entry the scan finds its index and the
product of the other entries. -/
theorem gcsScan_one_neg : ∀ (a : List Int) (dneg : Int) (b : List Int) (i : Nat) (acc : Int),
    dneg < 0 → (∀ x ∈ a, 0 ≤ x) → (∀ x ∈ b, 0 ≤ x) →
    gcsScan (a ++ dneg :: b) i none acc = .ok (some (i + a.length), acc * (a.prod * b.prod))
  | [], dneg, b, i, acc, hneg, _, hb => by
    rw [List.nil_append, gcsScan, if_pos hneg]
    simp only [Option.isSome_none, Bool.false_eq_true, if_false]
    rw [gcsScan_nonneg b (i + 1) (some i) acc hb]
    simp
  | x :: a, dneg, b, i, acc, hneg, ha, hb => by
    have hx : ¬x < 0 := not_lt.mpr (ha x (List.mem_cons_self x a))
    rw [List.cons_append, gcsScan, if_neg hx,
      gcsScan_one_neg a dneg b (i + 1) (acc * x) hneg
        (fun y hy => ha y (List.mem_cons_of_mem x hy)) hb]
    rw [List.prod_cons, List.length_cons]
    rw [show i + 1 + a.length = i + (a.length + 1) by omega]
    simp only [mul_assoc]

/-- `GetCompleteShape` on a target with no negative entry: exact
element-count check, target returned unchanged. -/
theorem gcs_no_neg (ts ss : List Int) (h : ∀ d ∈ ts, 0 ≤ d) :
    GetCompleteShape ts ss =
      if ss.prod = ts.prod then .ok ts else .error Err.elementCountMismatch := by
  unfold GetCompleteShape
  rw [gcsScan_nonneg ts 0 none 1 h]

/-- Setting the element right after the prefix `a`. -/
theorem set_after_append (a : List α) (x y : α) (b : List α) :
    (a ++ x :: b).set a.length y = a ++ y :: b := by
  rw [List.set_append_right _ _ (Nat.le_refl _), Nat.sub_self, List.set_cons_zero]

/-- `GetCompleteShape` on a target with exactly one negative entry whose
non-negative entries have non-zero product: truncating-division
inference of the missing size. -/
theorem gcs_one_neg (ss a : List Int) (dneg : Int) (b : List Int) (hneg : dneg < 0)
    (ha : ∀ x ∈ a, 0 ≤ x) (hb : ∀ x ∈ b, 0 ≤ x) (hk : a.prod * b.prod ≠ 0) :
    GetCompleteShape (a ++ dneg :: b) ss =
      if (ss.prod).tmod (a.prod * b.prod) = 0 then
        .ok (a ++ (ss.prod).tdiv (a.prod * b.prod) :: b)
      else .error Err.elementCountMismatch := by
  unfold GetCompleteShape
  rw [gcsScan_one_neg a dneg b 0 1 hneg ha hb]
  simp only [Nat.zero_add, one_mul]
  rw [if_neg hk, set_after_append]

/-- A list whose negative entries number at most one is either all
non-negative or splits around its single negative entry. -/
theorem one_neg_decomp : ∀ ts : List Int,
    (ts.filter (fun d => decide (d < 0))).length ≤ 1 →
    (∀ x ∈ ts, 0 ≤ x) ∨
      ∃ a dneg b, ts = a ++ dneg :: b ∧ dneg < 0 ∧
        (∀ x ∈ a, (0 : Int) ≤ x) ∧ (∀ x ∈ b, (0 : Int) ≤ x)
  | [], _ => Or.inl (by simp)
  | x :: rest, h => by
    by_cases hx : x < 0
    · right
      refine ⟨[], x, rest, rfl, hx, by simp, ?_⟩
      have hfil : rest.filter (fun d => decide (d < 0)) = [] := by
        rw [List.filter_cons_of_pos (by simpa using hx)] at h
        simp only [List.length_cons] at h
        exact List.length_eq_zero.mp (by omega)
      intro y hy
      have := List.filter_eq_nil_iff.mp hfil y hy
      simpa using not_lt.mp (by simpa using this)
    · have h' : (rest.filter (fun d => decide (d < 0))).length ≤ 1 := by
        rwa [List.filter_cons_of_neg (by simpa using hx)] at h
      rcases one_neg_decomp rest h' with hall | ⟨a, dneg, b, rfl, hneg, ha, hb⟩
      · left
        intro y hy
        rcases List.mem_cons.mp hy with rfl | hy
        · exact not_lt.mp hx
        · exact hall y hy
      · right
        exact ⟨x :: a, dneg, b, rfl, hneg,
          fun y hy => by
            rcases List.mem_cons.mp hy with rfl | hy
            · exact not_lt.mp hx
            · exact ha y hy, hb⟩

/-- C2: `GetCompleteShape` with no negative entry demands the exact
element-count match and returns the target unchanged; with exactly one
negative entry (at the position after prefix `a`) whose complementary
entries have non-zero product, it demands divisibility of the source
element count by that product (else the element-count error) and fills
the position with the quotient, copying every other entry through.  The
`%` and `/` are C++ truncating remainder and division (`tmod`/`tdiv`);
the non-zero product hypothesis excludes the modulo-by-zero undefined
behaviour exhibited by the counterexample. -/
theorem getCompleteShape_spec (ss : List Int) :
    (∀ ts : List Int, (∀ d ∈ ts, 0 ≤ d) →
        GetCompleteShape ts ss =
          if ss.prod = ts.prod then .ok ts else .error Err.elementCountMismatch) ∧
      ∀ (a : List Int) (dneg : Int) (b : List Int), dneg < 0 →
        (∀ x ∈ a, 0 ≤ x) → (∀ x ∈ b, 0 ≤ x) → a.prod * b.prod ≠ 0 →
        GetCompleteShape (a ++ dneg :: b) ss =
          if (ss.prod).tmod (a.prod * b.prod) = 0 then
            .ok (a ++ (ss.prod).tdiv (a.prod * b.prod) :: b)
          else .error Err.elementCountMismatch :=
  ⟨fun ts h => gcs_no_neg ts ss h,
    fun a dneg b hneg ha hb hk => gcs_one_neg ss a dneg b hneg ha hb hk⟩

/-- C2 (witness): `[2, -1]` against a 6-element source completes to
`[2, 3]`, and `[2, 3]` against it passes the exact-count check. -/
theorem getCompleteShape_spec_witness :
    GetCompleteShape [2, -1] [6] = .ok [2, 3] ∧
      GetCompleteShape [2, 3] [6] = .ok [2, 3] := by
  constructor
  · have h := (getCompleteShape_spec [6]).2 [2] (-1) [] (by decide)
      (by decide) (by decide) (by decide)
    simp only [List.cons_append, List.nil_append] at h
    rw [h, if_pos (by decide)]
    decide
  · have h := (getCompleteShape_spec [6]).1 [2, 3] (by decide)
    rw [h, if_pos (by decide)]

/-- C3 (amended): for a target with at most one negative entry,
`GetCompleteShape` returns a shape whose element-count product equals
the source product, or raises the documented element-count error —
provided that, when an incomplete entry is present, the target has no
zero-sized dimension (otherwise the code divides by zero, see the
counterexample). -/
theorem getCompleteShape_preserves_count (ts ss : List Int)
    (hone : (ts.filter (fun d => decide (d < 0))).length ≤ 1)
    (hzero : (∃ d ∈ ts, d < 0) → (0 : Int) ∉ ts) :
    (∃ r, GetCompleteShape ts ss = .ok r ∧ r.prod = ss.prod) ∨
      GetCompleteShape ts ss = .error Err.elementCountMismatch := by
  rcases one_neg_decomp ts hone with hall | ⟨a, dneg, b, rfl, hneg, ha, hb⟩
  · rw [gcs_no_neg ts ss hall]
    by_cases hp : ss.prod = ts.prod
    · exact Or.inl ⟨ts, by rw [if_pos hp], hp.symm⟩
    · exact Or.inr (by rw [if_neg hp])
  · have hmem : (0 : Int) ∉ a ++ dneg :: b :=
      hzero ⟨dneg, by simp, hneg⟩
    have hk : a.prod * b.prod ≠ 0 := by
      apply mul_ne_zero
      · exact List.prod_ne_zero fun h0 => hmem (by simp [h0])
      · exact List.prod_ne_zero fun h0 => hmem (by simp [h0])
    rw [gcs_one_neg ss a dneg b hneg ha hb hk]
    by_cases hm : (ss.prod).tmod (a.prod * b.prod) = 0
    · refine Or.inl ⟨_, by rw [if_pos hm], ?_⟩
      have hcancel := Int.mul_tdiv_cancel_of_tmod_eq_zero hm
      rw [List.prod_append, List.prod_cons]
      calc a.prod * ((ss.prod).tdiv (a.prod * b.prod) * b.prod)
          = a.prod * b.prod * (ss.prod).tdiv (a.prod * b.prod) := by ring
        _ = ss.prod := hcancel
    · exact Or.inr (by rw [if_neg hm])

/-- C3 (witness): both hypotheses hold for `[2, -1]` vs `[6]`, and the
completion preserves the element count. -/
theorem getCompleteShape_preserves_count_witness :
    (∃ r, GetCompleteShape [2, -1] [6] = .ok r ∧ r.prod = List.prod [6]) ∨
      GetCompleteShape [2, -1] [6] = .error Err.elementCountMismatch :=
  getCompleteShape_preserves_count [2, -1] [6] (by decide) (by decide)

/-- Re-inserting the erased element restores the list. -/
theorem insertAt_eraseIdx : ∀ (l : List α) (i : Nat) (h : i < l.length),
    insertAt i (l.get ⟨i, h⟩) (l.eraseIdx i) = l
  | _ :: _, 0, _ => rfl
  | x :: l, i + 1, h => by
    have h' : i < l.length := by simpa using Nat.lt_of_succ_lt_succ h
    simp only [List.eraseIdx_cons_succ, List.get_cons_succ, insertAt]
    rw [insertAt_eraseIdx l i h']

/-- C8: when dimension `dim` does not have size 1, squeezing is the
identity and unsqueezing at `dim` inserts an extra size-1 dimension
there; when it does have size 1, squeezing erases it and unsqueezing at
the same index restores the original tensor exactly. -/
theorem squeeze_unsqueeze_spec (t : Tensor α) (dim : Nat) (h : dim < t.shape.length) :
    (t.shape.get ⟨dim, h⟩ ≠ 1 →
        SqueezeTrivialDimension t dim = .ok t ∧
          BuildUnsqueeze t dim = .ok ⟨insertAt dim 1 t.shape, t.data⟩) ∧
      (t.shape.get ⟨dim, h⟩ = 1 →
        SqueezeTrivialDimension t dim = .ok ⟨t.shape.eraseIdx dim, t.data⟩ ∧
          BuildUnsqueeze ⟨t.shape.eraseIdx dim, t.data⟩ dim = .ok t) := by
  have hun : ∀ u : Tensor α, dim ≤ u.shape.length →
      BuildUnsqueeze u dim = .ok ⟨insertAt dim 1 u.shape, u.data⟩ := by
    intro u hu
    unfold BuildUnsqueeze BuildUnsqueezeDimensions
    rw [if_pos hu]
    rfl
  constructor
  · intro h1
    constructor
    · unfold SqueezeTrivialDimension
      rw [dif_pos h, if_pos h1]
    · exact hun t (Nat.le_of_lt h)
  · intro h1
    constructor
    · unfold SqueezeTrivialDimension
      rw [dif_pos h, if_neg (not_not_intro h1)]
      rfl
    · have hlen : dim ≤ (t.shape.eraseIdx dim).length := by
        rw [List.length_eraseIdx, if_pos h]
        omega
      have hins : insertAt dim 1 (t.shape.eraseIdx dim) = t.shape := by
        conv_rhs => rw [← insertAt_eraseIdx t.shape dim h]
        rw [h1]
      rw [hun ⟨t.shape.eraseIdx dim, t.data⟩ hlen]
      show Except.ok (Tensor.mk (insertAt dim 1 (t.shape.eraseIdx dim)) t.data) = Except.ok t
      rw [hins]

/-- C8 (witness): `[2, 1]` squeezed at 1 and unsqueezed at 1 round-trips;
squeezed at 0 (size 2) it is untouched. -/
theorem squeeze_unsqueeze_spec_witness :
    (SqueezeTrivialDimension (⟨[2, 1], [5, 6]⟩ : Tensor Int) 1 = .ok ⟨[2], [5, 6]⟩ ∧
        BuildUnsqueeze (⟨[2], [5, 6]⟩ : Tensor Int) 1 = .ok ⟨[2, 1], [5, 6]⟩) ∧
      SqueezeTrivialDimension (⟨[2, 1], [5, 6]⟩ : Tensor Int) 0 = .ok ⟨[2, 1], [5, 6]⟩ := by
  have h2 := (squeeze_unsqueeze_spec (⟨[2, 1], [5, 6]⟩ : Tensor Int) 1 (by decide)).2 rfl
  have h0 := (squeeze_unsqueeze_spec (⟨[2, 1], [5, 6]⟩ : Tensor Int) 0 (by decide)).1 (by decide)
  exact ⟨⟨h2.1, h2.2⟩, h0.1⟩

/-- Separating with the empty list is plain concatenation. -/
theorem joinSep_nil : ∀ ll : List (List α), joinSep [] ll = ll.flatten
  | [] => rfl
  | [x] => by simp [joinSep]
  | x :: y :: xs => by
    rw [joinSep, joinSep_nil (y :: xs)]
    simp

/-- Chunking a list of length `k * n` into `k` chunks of `n` and
flattening gives the list back. -/
theorem flatten_blocks : ∀ (k n : Nat) (data : List α), data.length = k * n →
    (blocks k n data).flatten = data
  | 0, n, data, h => by
    have hd : data = [] := List.length_eq_zero.mp (by omega)
    subst hd
    rfl
  | k + 1, n, data, h => by
    rw [blocks, List.flatten_cons,
      flatten_blocks k n (data.drop n) (by simp [h]; ring_nf; omega),
      List.take_append_drop]

/-- Flattening replicated singletons is replication. -/
theorem flatten_replicate_singleton : ∀ (k : Nat) (z : α),
    (List.replicate k [z]).flatten = List.replicate k z
  | 0, _ => rfl
  | k + 1, z => by
    rw [List.replicate_succ, List.flatten_cons, flatten_replicate_singleton k z,
      List.singleton_append, List.replicate_succ]

/-- The uniform description of `BuildResize`: flatten, truncate or
right-pad with zeros to the new element count, reshape. -/
theorem resize_formula (t : Tensor Int) (ns : List Nat) (hwf : t.wf) :
    BuildResize t ns = ⟨ns, t.data.take ns.prod ++ List.replicate (ns.prod - t.data.length) 0⟩ := by
  have hlen : t.data.length = t.shape.prod := hwf
  simp only [BuildResize]
  rcases Nat.lt_trichotomy ns.prod t.shape.prod with hlt | heq | hgt
  · rw [if_pos hlt]
    unfold sliceInDim Tensor.reshape
    show Tensor.mk ns (sliceDimData 0 [t.shape.prod] 0 ns.prod t.data) = _
    rw [sliceDimData]
    simp only [List.prod_nil, mul_one, Nat.sub_zero, Nat.zero_mul, List.drop_zero]
    rw [Nat.sub_eq_zero_of_le (by omega), List.replicate_zero, List.append_nil]
  · rw [if_neg (by omega), if_neg (by omega)]
    unfold Tensor.reshape
    rw [heq, ← hlen, List.take_length, Nat.sub_self, List.replicate_zero, List.append_nil]
  · rw [if_neg (by omega), if_pos hgt]
    unfold Tensor.pad Tensor.reshape
    show Tensor.mk ns (padData 0 [t.shape.prod] [(0, 0, (ns.prod : Int) - (t.shape.prod : Int))] t.data) = _
    rw [padData]
    simp only [Int.toNat_zero, List.replicate_zero, List.flatten_nil, List.nil_append,
      joinSep_nil, List.prod_nil]
    rw [Int.toNat_sub]
    have hmap : (blocks t.shape.prod 1 t.data).map (padData (0 : Int) [] []) =
        blocks t.shape.prod 1 t.data := by
      conv_rhs => rw [← List.map_id (blocks t.shape.prod 1 t.data)]
      exact List.map_congr_left fun b _ => rfl
    rw [hmap, flatten_blocks _ _ _ (by omega)]
    show Tensor.mk ns (t.data ++ (List.replicate (ns.prod - t.shape.prod)
      (List.replicate (padShape [] []).prod 0)).flatten) = _
    rw [show (padShape ([] : List Nat) []).prod = 1 from rfl, List.replicate_one,
      flatten_replicate_singleton]
    rw [List.take_of_length_le (by omega), hlen]

/-- C9: `BuildResize` flattens row-major, truncates to the first
`newCount` elements or right-pads with zeros (edge padding only) to
`newCount`, and reshapes to the new sizes; resizing to the own shape is
the identity, and resizing larger then back recovers the original. -/
theorem buildResize_spec (t : Tensor Int) (ns : List Nat) (hwf : t.wf) :
    BuildResize t ns = ⟨ns, t.data.take ns.prod ++ List.replicate (ns.prod - t.data.length) 0⟩ ∧
      BuildResize t t.shape = t ∧
      (t.shape.prod ≤ ns.prod → BuildResize (BuildResize t ns) t.shape = t) := by
  have hlen : t.data.length = t.shape.prod := hwf
  refine ⟨resize_formula t ns hwf, ?_, ?_⟩
  · rw [resize_formula t t.shape hwf, ← hlen, List.take_length, Nat.sub_self,
      List.replicate_zero, List.append_nil]
  · intro hle
    rw [resize_formula t ns hwf]
    have htake : t.data.take ns.prod = t.data := List.take_of_length_le (by omega)
    have hwf2 : (Tensor.mk ns (t.data.take ns.prod ++
        List.replicate (ns.prod - t.data.length) (0 : Int))).wf := by
      show (t.data.take ns.prod ++ _).length = ns.prod
      rw [htake, List.length_append, List.length_replicate]
      omega
    rw [resize_formula _ t.shape hwf2]
    show Tensor.mk t.shape ((t.data.take ns.prod ++ _).take t.shape.prod ++
      List.replicate (t.shape.prod - (t.data.take ns.prod ++ _).length) 0) = t
    rw [htake, ← hlen, List.take_left, List.length_append, List.length_replicate,
      Nat.sub_eq_zero_of_le (by omega), List.replicate_zero, List.append_nil]

/-- C9 (witness): `[2,2]` resized to `[3,2]` pads with zeros and resizing
back recovers the original tensor. -/
theorem buildResize_spec_witness :
    BuildResize (⟨[2, 2], [1, 2, 3, 4]⟩ : Tensor Int) [3, 2] = ⟨[3, 2], [1, 2, 3, 4, 0, 0]⟩ ∧
      BuildResize (BuildResize (⟨[2, 2], [1, 2, 3, 4]⟩ : Tensor Int) [3, 2]) [2, 2] =
        ⟨[2, 2], [1, 2, 3, 4]⟩ := by
  have h := buildResize_spec (⟨[2, 2], [1, 2, 3, 4]⟩ : Tensor Int) [3, 2] rfl
  refine ⟨by rw [h.1]; decide, h.2.2 (by decide)⟩

/-- The split loop agrees with the spec-side description: pair each
requested size with its running offset, keep the fitting prefix, slice
each. -/
theorem buildSplitGo_spec (t : Tensor α) (dim d : Nat) : ∀ (ss : List Nat) (idx : Nat),
    buildSplitGo t dim d ss idx =
      (((ss.zip ((List.range ss.length).map fun i => idx + (ss.take i).sum)).takeWhile
          (fun p => decide (p.2 + p.1 ≤ d))).map
        fun p => sliceInDim t p.2 (p.2 + p.1) dim)
  | [], idx => rfl
  | sz :: rest, idx => by
    have hoffs : (List.range (sz :: rest).length).map
        (fun i => idx + ((sz :: rest).take i).sum) =
        idx :: (List.range rest.length).map (fun i => (idx + sz) + (rest.take i).sum) := by
      rw [List.length_cons, List.range_succ_eq_map, List.map_cons, List.map_map]
      simp only [List.take_zero, List.sum_nil, Nat.add_zero, List.cons.injEq, true_and]
      apply List.map_congr_left
      intro i _
      show idx + ((sz :: rest).take (i + 1)).sum = idx + sz + (rest.take i).sum
      rw [List.take_succ_cons, List.sum_cons, Nat.add_assoc]
    rw [hoffs, List.zip_cons_cons, buildSplitGo]
    by_cases hc : idx + sz ≤ d
    · rw [if_neg (by omega), List.takeWhile_cons, if_pos (by simpa using hc), List.map_cons,
        buildSplitGo_spec t dim d rest (idx + sz)]
    · rw [if_pos (by omega), List.takeWhile_cons, if_neg (by simpa using hc), List.map_nil]

/-- The split loop never emits more chunks than requested sizes. -/
theorem buildSplitGo_length (t : Tensor α) (dim d : Nat) : ∀ (ss : List Nat) (idx : Nat),
    (buildSplitGo t dim d ss idx).length ≤ ss.length
  | [], _ => Nat.le_refl _
  | sz :: rest, idx => by
    rw [buildSplitGo]
    by_cases hc : d < idx + sz
    · rw [if_pos hc]
      simp
    · rw [if_neg hc, List.length_cons, List.length_cons]
      exact Nat.succ_le_succ (buildSplitGo_length t dim d rest (idx + sz))

/-- C5: `BuildSplit` walks the sizes in order with a running offset,
emits a stride-1 sub-range of each requested length at the current
offset along `dim`, stops at the first size that exceeds the remaining
length, and returns the chunks produced so far (never an error); the
result never has more chunks than requested sizes. -/
theorem buildSplit_spec (t : Tensor α) (ss : List Nat) (dim : Nat)
    (_hdim : dim < t.shape.length) :
    BuildSplit t ss dim = splitSpecChunks t ss dim ∧
      (BuildSplit t ss dim).length ≤ ss.length := by
  constructor
  · rw [BuildSplit, splitSpecChunks, buildSplitGo_spec]
    have hmap : (List.range ss.length).map (fun i => 0 + (ss.take i).sum) =
        (List.range ss.length).map fun i => (ss.take i).sum :=
      List.map_congr_left fun i _ => Nat.zero_add _
    rw [hmap]
  · exact buildSplitGo_length t dim _ ss 0

/-- C5 (witness): on a length-3 dimension, requested sizes `[2, 2]`
produce exactly one chunk (the second no longer fits) and the bound
holds. -/
theorem buildSplit_spec_witness :
    BuildSplit (⟨[3], [10, 20, 30]⟩ : Tensor Int) [2, 2] 0 =
        splitSpecChunks (⟨[3], [10, 20, 30]⟩ : Tensor Int) [2, 2] 0 ∧
      (BuildSplit (⟨[3], [10, 20, 30]⟩ : Tensor Int) [2, 2] 0).length ≤ 2 :=
  buildSplit_spec (⟨[3], [10, 20, 30]⟩ : Tensor Int) [2, 2] 0 (by decide)

/-- When every non-`dim` index agrees between target and source, the
configuration loop succeeds and produces the per-index configuration. -/
theorem unselectCfgGo_ok (td sd : List Nat) (dim : Nat) (start stride : Int) :
    ∀ idxs : List Nat, (∀ i ∈ idxs, i = dim ∨ td.getD i 0 = sd.getD i 0) →
    unselectCfgGo td sd dim start stride idxs =
      .ok (idxs.map fun i =>
        if i = dim then
          (start, stride - 1,
            (td.getD i 0 : Int) -
              (start + (sd.getD i 0 : Int) + ((sd.getD i 0 : Int) - 1) * (stride - 1)))
        else (0, 0, 0))
  | [], _ => rfl
  | i :: rest, h => by
    have hrest := unselectCfgGo_ok td sd dim start stride rest
      (fun j hj => h j (List.mem_cons_of_mem _ hj))
    by_cases hi : i = dim
    · rw [unselectCfgGo, if_pos hi, hrest, List.map_cons, if_pos hi]
    · have heq : td.getD i 0 = sd.getD i 0 :=
        (h i (List.mem_cons_self _ _)).resolve_left hi
      rw [unselectCfgGo, if_neg hi, if_pos heq, hrest, List.map_cons, if_neg hi]

/-- C1: on the general path (different sizes at `dim`, all other
dimensions agreeing, consistent window parameters) `BuildUnselect` pads
the source and an identically-configured all-true mask with the
spec-side configuration — low edge `start`, interior `stride − 1`, high
edge `target.shape[dim] − (start + source.shape[dim] +
(source.shape[dim]−1)·(stride−1))` at `dim`, zero elsewhere — and
selects between them and the target; on the worked example the result is
`[0, 9, 0, 9, 0]`. -/
theorem buildUnselect_general_spec :
    (∀ (t s : Tensor Int) (dim : Nat) (start e stride : Int),
        dim < t.shape.length → t.shape.length = s.shape.length →
        t.shape.getD dim 0 ≠ s.shape.getD dim 0 →
        (∀ i, i < t.shape.length → i ≠ dim → t.shape.getD i 0 = s.shape.getD i 0) →
        0 ≤ start → 1 ≤ stride →
        start + (s.shape.getD dim 0 : Int) +
            ((s.shape.getD dim 0 : Int) - 1) * (stride - 1) ≤ (t.shape.getD dim 0 : Int) →
        BuildUnselect t s dim start e stride =
          .ok (select
            ((allTrue s.shape).pad false (unselectSpecCfg t.shape s.shape dim start stride))
            (s.pad 0 (unselectSpecCfg t.shape s.shape dim start stride)) t)) ∧
      BuildUnselect ⟨[5], [0, 0, 0, 0, 0]⟩ ⟨[2], [9, 9]⟩ 0 1 5 2 =
        .ok ⟨[5], [0, 9, 0, 9, 0]⟩ := by
  constructor
  · intro t s dim start e stride hdim hrank hne heq hstart hstride hfit
    have hcond : ∀ i ∈ List.range t.shape.length, i = dim ∨
        t.shape.getD i 0 = s.shape.getD i 0 := by
      intro i hi
      by_cases hid : i = dim
      · exact Or.inl hid
      · exact Or.inr (heq i (List.mem_range.mp hi) hid)
    unfold BuildUnselect
    rw [if_neg hne, unselectCfgGo_ok t.shape s.shape dim start stride _ hcond]
    have hcfg : ((List.range t.shape.length).map fun i =>
        if i = dim then
          ((start : Int), stride - 1,
            (t.shape.getD i 0 : Int) -
              (start + (s.shape.getD i 0 : Int) +
                ((s.shape.getD i 0 : Int) - 1) * (stride - 1)))
        else (0, 0, 0)) = unselectSpecCfg t.shape s.shape dim start stride := by
      unfold unselectSpecCfg
      apply List.map_congr_left
      intro i _
      by_cases hid : i = dim
      · rw [if_pos hid, if_pos hid, hid]
      · rw [if_neg hid, if_neg hid]
    rw [hcfg]
  · decide

/-- C1 (witness): the general-path hypotheses hold at the worked
example, and the emitted node is the select of the two identically
padded operands against the target. -/
theorem buildUnselect_general_spec_witness :
    BuildUnselect ⟨[5], [0, 0, 0, 0, 0]⟩ ⟨[2], [9, 9]⟩ 0 1 5 2 =
      .ok (select
        ((allTrue [2]).pad false (unselectSpecCfg [5] [2] 0 1 2))
        ((⟨[2], [9, 9]⟩ : Tensor Int).pad 0 (unselectSpecCfg [5] [2] 0 1 2))
        ⟨[5], [0, 0, 0, 0, 0]⟩) :=
  buildUnselect_general_spec.1 ⟨[5], [0, 0, 0, 0, 0]⟩ ⟨[2], [9, 9]⟩ 0 1 5 2
    (by decide) (by decide) (by decide) (by decide) (by decide) (by decide) (by decide)

/-- Taking `m + n` elements is taking `m`, then `n` more after dropping. -/
theorem take_add_eq : ∀ (m n : Nat) (l : List α), l.take (m + n) = l.take m ++ (l.drop m).take n
  | 0, n, l => by simp
  | m + 1, n, [] => by simp
  | m + 1, n, x :: l => by
    rw [show m + 1 + n = (m + n) + 1 by omega, List.take_succ_cons, take_add_eq m n l,
      List.take_succ_cons, List.drop_succ_cons, List.cons_append]

/-- Pair each requested size with its running offset. -/
def offsetList (off : Nat) : List Nat → List (Nat × Nat)
  | [] => []
  | s :: rest => (off, s) :: offsetList (off + s) rest

/-- The offsets of consecutive chunks stay within the covered range. -/
theorem offsetList_mem_bound : ∀ (sizes : List Nat) (off : Nat) (p : Nat × Nat),
    p ∈ offsetList off sizes → p.1 + p.2 ≤ off + sizes.sum
  | s :: rest, off, p, hp => by
    rcases List.mem_cons.mp hp with rfl | hp
    · simp only [List.sum_cons]
      omega
    · have := offsetList_mem_bound rest (off + s) p hp
      simp only [List.sum_cons]
      omega

/-- The sizes stored in an offset list are the original sizes. -/
theorem offsetList_map_snd : ∀ (sizes : List Nat) (off : Nat),
    (offsetList off sizes).map (fun p => p.2) = sizes
  | [], _ => rfl
  | s :: rest, off => by
    rw [offsetList, List.map_cons, offsetList_map_snd rest (off + s)]

/-- Flattening consecutive segments of a list yields the enclosing
segment. -/
theorem seg_flatten : ∀ (sizes : List Nat) (off P : Nat) (data : List α),
    ((offsetList off sizes).map fun p => (data.drop (p.1 * P)).take (p.2 * P)).flatten
      = (data.drop (off * P)).take (sizes.sum * P)
  | [], off, P, data => by simp [offsetList]
  | sz :: rest, off, P, data => by
    simp only [offsetList, List.map_cons, List.flatten_cons]
    rw [seg_flatten rest (off + sz) P data, List.sum_cons, Nat.add_mul sz rest.sum P,
      take_add_eq (sz * P) (rest.sum * P) (data.drop (off * P)), List.drop_drop,
      Nat.add_mul off sz P]

/-- There are `k` chunks. -/
theorem blocks_count : ∀ (k n : Nat) (data : List α), (blocks k n data).length = k
  | 0, _, _ => rfl
  | k + 1, n, data => by
    rw [blocks, List.length_cons, blocks_count k n (data.drop n)]

/-- Every chunk of an exactly-covering chunking has length `n`. -/
theorem blocks_length : ∀ (k n : Nat) (data : List α), data.length = k * n →
    ∀ b ∈ blocks k n data, b.length = n
  | 0, _, _, _, _, hb => absurd hb (List.not_mem_nil _)
  | k + 1, n, data, h, b, hb => by
    rcases List.mem_cons.mp hb with rfl | hb
    · have hn : data.length = k * n + n := by rw [h, Nat.succ_mul]
      rw [List.length_take]
      omega
    · exact blocks_length k n (data.drop n)
        (by rw [List.length_drop, h, Nat.succ_mul]; omega) b hb

/-- Flattening a list of uniformly sized lists. -/
theorem flatten_length_uniform : ∀ (ll : List (List α)) (q : Nat),
    (∀ x ∈ ll, x.length = q) → ll.flatten.length = ll.length * q
  | [], _, _ => by simp
  | x :: ll, q, h => by
    rw [List.flatten_cons, List.length_append, h x (List.mem_cons_self _ _),
      flatten_length_uniform ll q (fun y hy => h y (List.mem_cons_of_mem _ hy)),
      List.length_cons]
    ring

/-- An in-bounds stride-1 slice has the sliced shape's element count. -/
theorem sliceDimData_length : ∀ (dim : Nat) (shape : List Nat) (start limit : Nat)
    (data : List α), dim < shape.length → data.length = shape.prod →
    start ≤ limit → limit ≤ shape.getD dim 0 →
    (sliceDimData dim shape start limit data).length = (shape.set dim (limit - start)).prod
  | 0, d :: s, start, limit, data, _, hwf, hsl, hld => by
    rw [sliceDimData, List.set_cons_zero, List.prod_cons, List.length_take, List.length_drop, hwf,
      List.prod_cons]
    have hld' : limit ≤ d := by simpa using hld
    have h1 : (limit - start) * s.prod ≤ d * s.prod - start * s.prod := by
      rw [← Nat.sub_mul]
      exact Nat.mul_le_mul_right _ (by omega)
    omega
  | dim + 1, d :: s, start, limit, data, hdim, hwf, hsl, hld => by
    rw [sliceDimData, List.set_cons_succ, List.prod_cons]
    have hdim' : dim < s.length := by simpa using hdim
    have hld' : limit ≤ s.getD dim 0 := by simpa using hld
    rw [flatten_length_uniform _ ((s.set dim (limit - start)).prod) ?_, List.length_map,
      blocks_count]
    intro y hy
    rcases List.mem_map.mp hy with ⟨b, hb, rfl⟩
    have hblen : b.length = s.prod :=
      blocks_length d s.prod data (by rw [hwf, List.prod_cons]) b hb
    exact sliceDimData_length dim s start limit b hdim' hblen hsl hld'

/-- A width-zero slice is empty. -/
theorem sliceDimData_zero_width : ∀ (dim : Nat) (shape : List Nat) (off : Nat) (data : List α),
    dim < shape.length → sliceDimData dim shape off off data = []
  | 0, d :: s, off, data, _ => by
    rw [sliceDimData, Nat.sub_self, Nat.zero_mul, List.take_zero]
  | dim + 1, d :: s, off, data, hdim => by
    rw [sliceDimData, List.flatten_eq_nil_iff]
    intro y hy
    rcases List.mem_map.mp hy with ⟨b, _, rfl⟩
    exact sliceDimData_zero_width dim s off b (by simpa using hdim)

/-- Slicing the whole dimension is the identity. -/
theorem sliceDimData_full : ∀ (dim : Nat) (shape : List Nat) (data : List α),
    dim < shape.length → data.length = shape.prod →
    sliceDimData dim shape 0 (shape.getD dim 0) data = data
  | 0, d :: s, data, _, hwf => by
    rw [sliceDimData, Nat.zero_mul, List.drop_zero, Nat.sub_zero]
    exact List.take_of_length_le (by rw [hwf, List.prod_cons]; simp)
  | dim + 1, d :: s, data, hdim, hwf => by
    rw [sliceDimData]
    have hmap : (blocks d s.prod data).map (sliceDimData dim s 0 ((d :: s).getD (dim + 1) 0)) =
        blocks d s.prod data := by
      conv_rhs => rw [← List.map_id (blocks d s.prod data)]
      apply List.map_congr_left
      intro b hb
      have hblen : b.length = s.prod :=
        blocks_length d s.prod data (by rw [hwf, List.prod_cons]) b hb
      show sliceDimData dim s 0 (s.getD dim 0) b = id b
      exact sliceDimData_full dim s b (by simpa using hdim) hblen
    rw [hmap, flatten_blocks d s.prod data (by rw [hwf, List.prod_cons])]

/-- Peeling the shared leading dimension: concatenating (at level
`dim + 1`) consecutive slices of `data` works blockwise, provided the
level-`dim` concatenation (`ih`) already concatenates consecutive slices
of any single block. -/
theorem catOuter_slices (dim : Nat) (s : List Nat) (off : Nat) (sizes : List Nat) (d0 : Nat)
    (hdim : dim < s.length)
    (hbound : ∀ p ∈ offsetList off sizes, p.1 + p.2 ≤ s.getD dim 0)
    (ih : ∀ data : List α, data.length = s.prod →
      catDimData dim ((offsetList off sizes).map fun p =>
          (s.set dim p.2, sliceDimData dim s p.1 (p.1 + p.2) data))
        = sliceDimData dim s off (off + sizes.sum) data) :
    ∀ (k : Nat) (data : List α), data.length = k * s.prod →
    catOuter (catDimData dim) k ((offsetList off sizes).map fun p =>
        (d0 :: s.set dim p.2,
          ((blocks k s.prod data).map (sliceDimData dim s p.1 (p.1 + p.2))).flatten))
      = ((blocks k s.prod data).map (sliceDimData dim s off (off + sizes.sum))).flatten
  | 0, data, _ => rfl
  | k + 1, data, hlen => by
    have hP : s.prod ≤ data.length := by rw [hlen, Nat.succ_mul]; omega
    have htake : (data.take s.prod).length = s.prod := by rw [List.length_take]; omega
    have hdrop : (data.drop s.prod).length = k * s.prod := by
      rw [List.length_drop, hlen, Nat.succ_mul]; omega
    have hslice_len : ∀ p ∈ offsetList off sizes,
        (sliceDimData dim s p.1 (p.1 + p.2) (data.take s.prod)).length =
          (s.set dim p.2).prod := by
      intro p hp
      have := sliceDimData_length dim s p.1 (p.1 + p.2) (data.take s.prod) hdim htake
        (Nat.le_add_right _ _) (hbound p hp)
      rwa [Nat.add_sub_cancel_left] at this
    rw [catOuter]
    have h1 : ((offsetList off sizes).map fun p =>
          (d0 :: s.set dim p.2,
            ((blocks (k + 1) s.prod data).map (sliceDimData dim s p.1 (p.1 + p.2))).flatten)).map
          (fun p => (p.1.tail, p.2.take p.1.tail.prod)) =
        (offsetList off sizes).map fun p =>
          (s.set dim p.2, sliceDimData dim s p.1 (p.1 + p.2) (data.take s.prod)) := by
      rw [List.map_map]
      apply List.map_congr_left
      intro p hp
      show (s.set dim p.2,
        (((blocks (k + 1) s.prod data).map (sliceDimData dim s p.1 (p.1 + p.2))).flatten).take
          ((s.set dim p.2).prod)) = _
      refine congrArg (Prod.mk _) ?_
      rw [show blocks (k + 1) s.prod data =
          data.take s.prod :: blocks k s.prod (data.drop s.prod) from rfl,
        List.map_cons, List.flatten_cons, List.take_left' (hslice_len p hp)]
    have h2 : ((offsetList off sizes).map fun p =>
          (d0 :: s.set dim p.2,
            ((blocks (k + 1) s.prod data).map (sliceDimData dim s p.1 (p.1 + p.2))).flatten)).map
          (fun p => (p.1, p.2.drop p.1.tail.prod)) =
        (offsetList off sizes).map fun p =>
          (d0 :: s.set dim p.2,
            ((blocks k s.prod (data.drop s.prod)).map
              (sliceDimData dim s p.1 (p.1 + p.2))).flatten) := by
      rw [List.map_map]
      apply List.map_congr_left
      intro p hp
      show (d0 :: s.set dim p.2,
        (((blocks (k + 1) s.prod data).map (sliceDimData dim s p.1 (p.1 + p.2))).flatten).drop
          ((s.set dim p.2).prod)) = _
      refine congrArg (Prod.mk _) ?_
      rw [show blocks (k + 1) s.prod data =
          data.take s.prod :: blocks k s.prod (data.drop s.prod) from rfl,
        List.map_cons, List.flatten_cons, List.drop_left' (hslice_len p hp)]
    rw [h1, h2, ih (data.take s.prod) htake,
      catOuter_slices dim s off sizes d0 hdim hbound ih k (data.drop s.prod) hdrop,
      show blocks (k + 1) s.prod data =
        data.take s.prod :: blocks k s.prod (data.drop s.prod) from rfl,
      List.map_cons, List.flatten_cons]

/-- Concatenating consecutive stride-1 slices of a tensor along `dim`
gives the enclosing slice. -/
theorem cat_slices : ∀ (dim : Nat) (shape : List Nat) (data : List α)
    (sizes : List Nat) (off : Nat),
    dim < shape.length → data.length = shape.prod →
    off + sizes.sum ≤ shape.getD dim 0 →
    catDimData dim ((offsetList off sizes).map fun p =>
        (shape.set dim p.2, sliceDimData dim shape p.1 (p.1 + p.2) data))
      = sliceDimData dim shape off (off + sizes.sum) data
  | 0, d :: s, data, sizes, off, _, _, _ => by
    show ((((offsetList off sizes).map fun p =>
        ((d :: s).set 0 p.2, sliceDimData 0 (d :: s) p.1 (p.1 + p.2) data)).map
          fun p => p.2)).flatten = _
    rw [List.map_map]
    have hmap : (offsetList off sizes).map
        ((fun p : List Nat × List α => p.2) ∘ fun p : Nat × Nat =>
          ((d :: s).set 0 p.2, sliceDimData 0 (d :: s) p.1 (p.1 + p.2) data)) =
        (offsetList off sizes).map fun p =>
          (data.drop (p.1 * s.prod)).take (p.2 * s.prod) := by
      apply List.map_congr_left
      intro p _
      show sliceDimData 0 (d :: s) p.1 (p.1 + p.2) data = _
      rw [sliceDimData, Nat.add_sub_cancel_left]
    rw [hmap, seg_flatten, sliceDimData, Nat.add_sub_cancel_left]
  | dim + 1, d :: s, data, sizes, off, hdim, hwf, hbound => by
    have hdim' : dim < s.length := by simpa using hdim
    have hb : off + sizes.sum ≤ s.getD dim 0 := by simpa using hbound
    have hpieces : (offsetList off sizes).map (fun p =>
        ((d :: s).set (dim + 1) p.2, sliceDimData (dim + 1) (d :: s) p.1 (p.1 + p.2) data)) =
      (offsetList off sizes).map (fun p =>
        (d :: s.set dim p.2,
          ((blocks d s.prod data).map (sliceDimData dim s p.1 (p.1 + p.2))).flatten)) := by
      apply List.map_congr_left
      intro p _
      rw [List.set_cons_succ, sliceDimData]
    rw [hpieces]
    cases sizes with
    | nil =>
      show ([] : List α) = _
      simp only [List.sum_nil, Nat.add_zero]
      rw [sliceDimData_zero_width (dim + 1) (d :: s) off data hdim]
    | cons sz rest =>
      show catOuter (catDimData dim) d ((offsetList off (sz :: rest)).map fun p =>
          (d :: s.set dim p.2,
            ((blocks d s.prod data).map (sliceDimData dim s p.1 (p.1 + p.2))).flatten))
        = sliceDimData (dim + 1) (d :: s) off (off + (sz :: rest).sum) data
      rw [catOuter_slices dim s off (sz :: rest) d hdim'
        (fun p hp => Nat.le_trans (offsetList_mem_bound _ _ _ hp) hb)
        (fun b hb' => cat_slices dim s b (sz :: rest) off hdim' hb' hb)
        d data (by rw [hwf, List.prod_cons]),
      sliceDimData]

/-- Reading back the entry just written. -/
theorem getD_set_self (l : List Nat) (i : Nat) (v : Nat) (h : i < l.length) :
    (l.set i v).getD i 0 = v := by
  rw [List.getD_eq_getElem?_getD, List.getElem?_set_self h]
  rfl

/-- Writing back the entry already there changes nothing. -/
theorem set_getD_self : ∀ (l : List Nat) (i : Nat), i < l.length →
    l.set i (l.getD i 0) = l
  | x :: l, 0, _ => by rw [List.getD_cons_zero, List.set_cons_zero]
  | x :: l, i + 1, h => by
    rw [List.getD_cons_succ, List.set_cons_succ, set_getD_self l i (by simpa using h)]

/-- When every requested size fits, the split loop emits one slice per
size, at the running offsets. -/
theorem buildSplitGo_all (t : Tensor α) (dim dsize : Nat) : ∀ (ss : List Nat) (idx : Nat),
    idx + ss.sum ≤ dsize →
    buildSplitGo t dim dsize ss idx =
      (offsetList idx ss).map fun p => sliceInDim t p.1 (p.1 + p.2) dim
  | [], idx, _ => rfl
  | sz :: rest, idx, h => by
    rw [List.sum_cons] at h
    rw [buildSplitGo, if_neg (by omega), offsetList, List.map_cons,
      buildSplitGo_all t dim dsize rest (idx + sz) (by omega)]

/-- C6 (counterexample): with an empty split-size list (which sums to a
zero-sized dimension) `BuildSplit` returns no chunks and `BuildCat`
rejects the empty input list instead of reconstructing the input. -/
theorem splitCat_empty_sizes :
    ([] : List Nat).sum = (⟨[0], ([] : List Int)⟩ : Tensor Int).shape.getD 0 0 ∧
      BuildCat (BuildSplit (⟨[0], ([] : List Int)⟩ : Tensor Int) [] 0) 0 =
        .error Err.emptyInputList ∧
      BuildCat (BuildSplit (⟨[0], ([] : List Int)⟩ : Tensor Int) [] 0) 0 ≠
        .ok (⟨[0], ([] : List Int)⟩ : Tensor Int) := by decide

/-- C6 (amended): for every well-formed input, in-range dimension and
non-empty split-size list whose entries sum exactly to the length of
dimension `dim`, concatenating the chunks of `BuildSplit` along `dim`
with `BuildCat` reconstructs the input exactly. -/
theorem splitCat_roundtrip (t : Tensor α) (ss : List Nat) (dim : Nat)
    (hne : ss ≠ []) (hdim : dim < t.shape.length) (hwf : t.wf)
    (hsum : ss.sum = t.shape.getD dim 0) :
    BuildCat (BuildSplit t ss dim) dim = .ok t := by
  cases ss with
  | nil => exact absurd rfl hne
  | cons sz rest =>
    have hwf' : t.data.length = t.shape.prod := hwf
    have hall : 0 + (sz :: rest).sum ≤ t.shape.getD dim 0 := by omega
    have hchunks : BuildSplit t (sz :: rest) dim =
        (offsetList 0 (sz :: rest)).map fun p => sliceInDim t p.1 (p.1 + p.2) dim :=
      buildSplitGo_all t dim (t.shape.getD dim 0) (sz :: rest) 0 hall
    rw [hchunks]
    unfold BuildCat
    rw [if_neg (by rw [offsetList, List.map_cons]; simp)]
    refine congrArg Except.ok ?_
    unfold concatInDim
    have hdata : catDimData dim (((offsetList 0 (sz :: rest)).map fun p =>
        sliceInDim t p.1 (p.1 + p.2) dim).map fun u => (u.shape, u.data)) = t.data := by
      rw [List.map_map]
      have hmap : (offsetList 0 (sz :: rest)).map
          ((fun u : Tensor α => (u.shape, u.data)) ∘ fun p =>
            sliceInDim t p.1 (p.1 + p.2) dim) =
          (offsetList 0 (sz :: rest)).map fun p =>
            (t.shape.set dim p.2, sliceDimData dim t.shape p.1 (p.1 + p.2) t.data) := by
        apply List.map_congr_left
        intro p _
        show (t.shape.set dim (p.1 + p.2 - p.1),
          sliceDimData dim t.shape p.1 (p.1 + p.2) t.data) = _
        rw [Nat.add_sub_cancel_left]
      rw [hmap, cat_slices dim t.shape t.data (sz :: rest) 0 hdim hwf' hall, Nat.zero_add,
        hsum]
      exact sliceDimData_full dim t.shape t.data hdim hwf'
    have hsizes : (((offsetList 0 (sz :: rest)).map fun p =>
        sliceInDim t p.1 (p.1 + p.2) dim).map fun u => u.shape.getD dim 0) = sz :: rest := by
      rw [List.map_map]
      have hmap : (offsetList 0 (sz :: rest)).map
          ((fun u : Tensor α => u.shape.getD dim 0) ∘ fun p =>
            sliceInDim t p.1 (p.1 + p.2) dim) =
          (offsetList 0 (sz :: rest)).map fun p => p.2 := by
        apply List.map_congr_left
        intro p _
        show (t.shape.set dim (p.1 + p.2 - p.1)).getD dim 0 = p.2
        rw [Nat.add_sub_cancel_left, getD_set_self t.shape dim p.2 hdim]
      rw [hmap, offsetList_map_snd]
    rw [hdata, hsizes]
    rw [offsetList, List.map_cons, List.headD_cons]
    show Tensor.mk ((t.shape.set dim (0 + sz - 0)).set dim (sz :: rest).sum) t.data = t
    rw [List.set_set, hsum, set_getD_self t.shape dim hdim]

/-- C6 (witness): splitting a `[2,4]` tensor along dimension 1 into
sizes `[1, 3]` and concatenating reconstructs it. -/
theorem splitCat_roundtrip_witness :
    BuildCat (BuildSplit (⟨[2, 4], [1, 2, 3, 4, 5, 6, 7, 8]⟩ : Tensor Int) [1, 3] 1) 1 =
      .ok ⟨[2, 4], [1, 2, 3, 4, 5, 6, 7, 8]⟩ :=
  splitCat_roundtrip (⟨[2, 4], [1, 2, 3, 4, 5, 6, 7, 8]⟩ : Tensor Int) [1, 3] 1
    (by decide) (by decide) rfl (by decide)
